import Mathlib

/-!
Verification of the `hc` markup component-expansion engine (Go).

The definitions below are a shallow embedding of the functions in `hc.go`.
Go byte slices and strings are modelled as Lean `String`s, Go maps as
association lists (Go map keys are unique, so list order only determinizes
the model), Go `error` values as an explicit `RErr` inductive, and the
black-box `text/template` / `html/template` engine as function parameters
(`evalTpl`, `compile`, per-component `exec` functions).  The `encoding/xml`
decoder (with `Strict = false` and `AutoClose`) is modelled at the token
level: a document is the decoder's token stream, each token carrying the
raw source bytes it was decoded from, so byte offsets are the cumulative
lengths of token sources.  The non-strict decoder auto-balances mismatched
end tags (`popElement` rewrites a mismatched end tag to close the innermost
open element), so decoder streams are always well nested or truncated;
the `WellNested` predicate captures that guarantee.
-/

namespace HC

/-- Go `unicode.IsSpace` restricted to Latin-1, which is what
`strings.TrimSpace` tests byte-wise first (the full Unicode space
category is irrelevant to the claims). -/
def goIsSpace (c : Char) : Bool :=
  c = ' ' || c = '\t' || c = '\n' || c = '\u000B' || c = '\u000C' || c = '\r' ||
  c = '\u0085' || c = '\u00A0'

/-- Go `strings.TrimSpace`: drop leading and trailing white space. -/
def goTrimSpace (s : String) : String :=
  ⟨((s.data.dropWhile goIsSpace).reverse.dropWhile goIsSpace).reverse⟩

/-- Go `strings.ToLower` (per-rune lowering; `Char.toLower` agrees with Go
on ASCII, which is all the claims exercise). -/
def goToLower (s : String) : String :=
  ⟨s.data.map Char.toLower⟩

/-- Go `isComponentName`: nonempty and the first rune is upper case
(`unicode.IsUpper`; ASCII agrees with `Char.isUpper`). -/
def isComponentName (name : String) : Bool :=
  match name.data with
  | [] => false
  | c :: _ => c.isUpper

/-- Lookup in a Go map modelled as an association list. -/
def lookupKey (m : List (String × α)) (k : String) : Option α :=
  match m with
  | [] => none
  | (k2, v) :: rest => if k2 = k then some v else lookupKey rest k

/-- Go map assignment `m[k] = v` on the association-list model. -/
def goMapInsert (m : List (String × α)) (k : String) (v : α) : List (String × α) :=
  match m with
  | [] => [(k, v)]
  | (k2, v2) :: rest => if k2 = k then (k, v) :: rest else (k2, v2) :: goMapInsert rest k v

/-- Constant `maxComponentPasses` from `hc.go`. -/
def maxComponentPasses : Nat := 16

/-- The Go `error` values produced by the engine.  Errors coming out of the
black-box template engine, file system, augmenters, post-processors and
pipeline stages are `.other`. -/
inductive RErr where
  | emptyFile
  | fuelOut
  | passLimit
  | unclosedTag (name : String)
  | invalidOffsets (name : String)
  | missingRequired (component attr : String)
  | unsupportedAttr (component attr : String)
  | wrapAttr (attr : String) (e : RErr)
  | wrapComponent (component : String) (e : RErr)
  | notFound (component : String)
  | parseFailed (component source : String)
  | other (msg : String)
deriving DecidableEq, Repr

/-- The `Error()` message of the modelled errors (mirrors the `fmt.Errorf`
format strings in `hc.go`). -/
def RErr.message : RErr → String
  | .emptyFile => "file is empty"
  | .fuelOut => "model fuel exhausted"
  | .passLimit => "component rendering exceeded " ++ toString maxComponentPasses ++ " passes"
  | .unclosedTag n => "unclosed component tag: " ++ n
  | .invalidOffsets n => "invalid offsets for component " ++ n
  | .missingRequired c a => "component " ++ c ++ " missing required attr \"" ++ a ++ "\""
  | .unsupportedAttr c a => "component " ++ c ++ " received unsupported attr \"" ++ a ++ "\""
  | .wrapAttr a e => "attr " ++ a ++ ": " ++ e.message
  | .wrapComponent c e => "render component " ++ c ++ ": " ++ e.message
  | .notFound c => "component " ++ c ++ " not found"
  | .parseFailed c s => "parse component " ++ c ++ " (" ++ s ++ ")"
  | .other m => m

/-- An evaluated attribute value: `interpretAttrValue` returns either the
string or a coerced boolean (the Go `any`). -/
inductive AttrVal where
  | str (s : String)
  | boolean (b : Bool)
deriving DecidableEq, Repr

/-- Function `interpretAttrValue` from `hc.go`: trim; empty stays the empty string;
exactly "true"/"false" after trimming parses as a bool
(`strconv.ParseBool` succeeds on those two literals); anything else
returns the untrimmed input. -/
def interpretAttrValue (raw : String) : AttrVal :=
  let trimmed := goTrimSpace raw
  if trimmed = "" then .str ""
  else if trimmed = "true" then .boolean true
  else if trimmed = "false" then .boolean false
  else .str raw

/-- Function `evaluateAttr` from `hc.go`.  `evalTpl` is the black-box
`text/template` parse-and-execute of the expression against the render
state's data and merged functions. -/
def evaluateAttr (evalTpl : String → Except RErr String) (raw : String) :
    Except RErr AttrVal :=
  if goTrimSpace raw = "" then .ok (.str "")
  else
    match evalTpl raw with
    | .error err => .error err
    | .ok rendered => .ok (interpretAttrValue rendered)

/-- Structure `attrPolicy` from `hc.go` (sets modelled as lists; membership is all
that is used). -/
structure AttrPolicy where
  required : List String
  allowed : List String
  allowOthers : Bool
deriving Repr

/-- Option `RequireAttrs`: add the lower-cased nonempty names to the required set. -/
def RequireAttrs (names : List String) : AttrPolicy → AttrPolicy :=
  fun p => { p with required := p.required ++ (names.filter (fun n => n ≠ "")).map goToLower }

/-- Option `AllowAttrs`: add the lower-cased nonempty names to the allowed set. -/
def AllowAttrs (names : List String) : AttrPolicy → AttrPolicy :=
  fun p => { p with allowed := p.allowed ++ (names.filter (fun n => n ≠ "")).map goToLower }

/-- Option `AllowOtherAttrs`. -/
def AllowOtherAttrs : AttrPolicy → AttrPolicy :=
  fun p => { p with allowOthers := true }

/-- The registration performed by `WithAttrRules`: build the policy from
the options (nil options are skipped in Go, so they are absent from the
list here), union the required set into the allowed set, and store it
under the lower-cased trimmed component name. -/
def withAttrRules (component : String) (opts : List (AttrPolicy → AttrPolicy))
    (policies : List (String × AttrPolicy)) : List (String × AttrPolicy) :=
  let name := goTrimSpace component
  if name = "" then policies
  else
    let policy := opts.foldl (fun p opt => opt p) ⟨[], [], false⟩
    let policy := { policy with allowed := policy.allowed ++ policy.required }
    goMapInsert policies (goToLower name) policy

/-- Function `validateAttributes` from `hc.go`.  `props` is the evaluated props map
(canonical lower-cased attribute names).  Go map iteration order is
unspecified; the list order merely determinizes which witness attribute is
named in the error. -/
def validateAttributes (policies : List (String × AttrPolicy)) (component : String)
    (props : List (String × AttrVal)) : Except RErr Unit :=
  if policies.isEmpty then .ok ()
  else
    match lookupKey policies (goToLower component) with
    | none => .ok ()
    | some policy =>
      match policy.required.find? (fun req => (lookupKey props req).isNone) with
      | some req => .error (.missingRequired component req)
      | none =>
        if policy.allowOthers then .ok ()
        else
          match props.find? (fun pr => decide (pr.1 ∉ policy.allowed)) with
          | some pr => .error (.unsupportedAttr component pr.1)
          | none => .ok ()

/-- The opaque per-request execution context (`context.Context`), modelled
as an identifier. -/
abbrev Ctx := Nat

/-- A Go `any` data value as far as `dataWithContext` inspects it:
`nil`, a `map[string]any`, a `*map[string]any`, some other string-keyed
map kind reached through reflection, a string, a stored context, or an
arbitrary value of any other kind. -/
inductive GoVal where
  | nilV
  | str (s : String)
  | ctxV (c : Ctx)
  | strMap (entries : List (String × GoVal))
  | ptrStrMap (entries : List (String × GoVal))
  | reflStrMap (entries : List (String × GoVal))
  | otherVal (tag : Nat)
deriving Repr

/-- Function `dataWithContext` from `hc.go`.  The embedding is pure: the Go code
never writes to the caller's map, and the branches that copy are exactly
the ones whose result here is a list built anew from the input entries.
(The nil `*map[string]any` case returns the data unchanged and is folded
into `ptrStrMap` holding the pointee.) -/
def dataWithContext (ctx : Option Ctx) (data : GoVal) : GoVal :=
  match ctx with
  | none => data
  | some c =>
    match data with
    | .nilV => .strMap [("Ctx", .ctxV c)]
    | .strMap m =>
      if (lookupKey m "Ctx").isSome then .strMap m
      else .strMap (m ++ [("Ctx", .ctxV c)])
    | .ptrStrMap m =>
      if (lookupKey m "Ctx").isSome then .strMap m
      else .strMap (m ++ [("Ctx", .ctxV c)])
    | .reflStrMap m =>
      if (lookupKey m "Ctx").isSome then .strMap m
      else .strMap (m ++ [("Ctx", .ctxV c)])
    | v => v

/-- An opaque template function value (only identity matters). -/
abbrev Fn := Nat

/-- Function `mergedFuncMap` from `hc.go`: clone the static registry, then overwrite
with every entry of the provider's dynamic registry.  (After `NewHC` the
static map is never nil, so the nil branch is dropped.) -/
def mergedFuncMap (staticFuncs : List (String × Fn))
    (provider : Option (Ctx → List (String × Fn))) (ctx : Ctx) : List (String × Fn) :=
  let merged := staticFuncs
  match provider with
  | none => merged
  | some p =>
    let dynamic := p ctx
    if dynamic.isEmpty then merged
    else dynamic.foldl (fun acc kv => goMapInsert acc kv.1 kv.2) merged

/-- The two engine caches (`HC.cache`): compiled templates keyed by
`cacheKey`, component sources keyed by the lower-cased name.  A compiled
template is opaque; we store the compiler's output string. -/
structure CacheState where
  entries : List (String × String)
  sources : List (String × (String × String))
deriving Repr

/-- The engine configuration that the cache layer consults.
`readComponentFile` abstracts the candidate-path file resolution and
`compile` the black-box template compiler. -/
structure CEngine where
  hasFuncMapProvider : Bool
  cacheKeyFunc : Option (Ctx → String → String)
  localeExtractor : Option (Ctx → String)
  localeFallback : String
  readComponentFile : String → Except RErr (String × String)
  compile : String → Except RErr String

/-- Function `cacheKey` from `hc.go`. -/
def cacheKey (eng : CEngine) (ctx : Ctx) (componentName : String) : String :=
  let base := goToLower componentName
  let base :=
    match eng.cacheKeyFunc with
    | none => base
    | some f =>
      let key := goTrimSpace (f ctx componentName)
      if key ≠ "" then key else base
  match eng.localeExtractor with
  | none => base
  | some ext =>
    let locale := goTrimSpace (ext ctx)
    let locale := if locale = "" then eng.localeFallback else locale
    if locale ≠ "" then goToLower locale ++ ":" ++ base else base

/-- Result of `getComponentSource`: the outcome, the updated cache, and
whether the file system was consulted. -/
structure SrcOut where
  res : Except RErr (String × String)
  st : CacheState
  readFS : Bool

/-- Function `getComponentSource` from `hc.go` (the stored `content` is never nil
in the model, matching the non-nil check in Go). -/
def getComponentSource (eng : CEngine) (st : CacheState) (name : String) : SrcOut :=
  let key := goToLower name
  match lookupKey st.sources key with
  | some src => ⟨.ok src, st, false⟩
  | none =>
    match eng.readComponentFile name with
    | .error err => ⟨.error err, st, true⟩
    | .ok cs => ⟨.ok cs, { st with sources := goMapInsert st.sources key cs }, true⟩

/-- Result of `loadComponentTemplate`. -/
structure TplOut where
  res : Except RErr String
  st : CacheState
  readFS : Bool

/-- Function `loadComponentTemplate` from `hc.go`: with a func-map provider the
compiled-template cache is neither consulted nor populated; the
source-path/line enrichment of compile errors is abstracted to
`parseFailed`. -/
def loadComponentTemplate (eng : CEngine) (ctx : Ctx) (st : CacheState) (name : String) :
    TplOut :=
  let key := cacheKey eng ctx name
  match (if eng.hasFuncMapProvider then none else lookupKey st.entries key) with
  | some tpl => ⟨.ok tpl, st, false⟩
  | none =>
    let so := getComponentSource eng st name
    match so.res with
    | .error err => ⟨.error err, so.st, so.readFS⟩
    | .ok cs =>
      match eng.compile cs.1 with
      | .error _ => ⟨.error (.parseFailed name cs.2), so.st, so.readFS⟩
      | .ok tpl =>
        if eng.hasFuncMapProvider then ⟨.ok tpl, so.st, so.readFS⟩
        else ⟨.ok tpl, { so.st with entries := goMapInsert so.st.entries key tpl }, so.readFS⟩

/-! ### The markup token model

A document is the token stream the non-strict `encoding/xml` decoder
produces from the input bytes; each token carries the raw bytes it was
decoded from (`src`), so an `InputOffset` is a cumulative `src` length.
A self-closing tag is decoded as a start token (carrying the whole tag's
bytes and the self-closing flag the byte-level scan of
`splitComponentBody` detects) followed by a zero-width close token. -/

inductive Tok where
  | text (src : String)
  | start (name : String) (attrs : List (String × String)) (selfClosing : Bool) (src : String)
  | close (name : String) (src : String)
deriving DecidableEq, Repr

/-- The raw bytes a token was decoded from. -/
def Tok.srcOf : Tok → String
  | .text s => s
  | .start _ _ _ s => s
  | .close _ s => s

/-- The tag name (`elem.Name.Local`). -/
def Tok.nameOf : Tok → String
  | .text _ => ""
  | .start n _ _ _ => n
  | .close n _ => n

/-- The attribute list of a start tag. -/
def Tok.attrsOf : Tok → List (String × String)
  | .start _ a _ _ => a
  | _ => []

/-- Whether the token opens a component (`xml.StartElement` with an
upper-case first letter). -/
def Tok.isComponentStart : Tok → Bool
  | .start n _ _ _ => isComponentName n
  | _ => false

/-- The bytes of a token span (`input[start:end]` is the concatenation of
the spanned tokens' sources). -/
def bytesOf : List Tok → String
  | [] => ""
  | t :: ts => t.srcOf ++ bytesOf ts

/-- The matching-close scan of `renderMarkupStream` (and `replaceOnce`):
starting just after a component start tag with `depthCount = 1`, every
further start tag increments and every end tag decrements the depth; when
it reaches zero the element is complete.  Returns the element's remaining
tokens (through the matching close) and the tokens after it, or `none` if
the stream ends first ("unclosed component tag"). -/
def scanClose : List Tok → Nat → Option (List Tok × List Tok)
  | [], _ => none
  | t :: rest, d =>
    let d2 := match t with
      | .start _ _ _ _ => d + 1
      | .close _ _ => d - 1
      | .text _ => d
    if d2 = 0 then some ([t], rest)
    else
      match scanClose rest d2 with
      | some (el, after) => some (t :: el, after)
      | none => none

/-- The scan as the specification describes it: only start/end tags of the
*same name* as the component change the depth. -/
def scanCloseSame (name : String) : List Tok → Nat → Option (List Tok × List Tok)
  | [], _ => none
  | t :: rest, d =>
    let d2 := match t with
      | .start n _ _ _ => if n = name then d + 1 else d
      | .close n _ => if n = name then d - 1 else d
      | .text _ => d
    if d2 = 0 then some ([t], rest)
    else
      match scanCloseSame name rest d2 with
      | some (el, after) => some (t :: el, after)
      | none => none

/-- Token streams the non-strict decoder can produce between a start tag
and its matching close: every start tag is closed, in order, by an end tag
of the same name (`popElement` auto-balances mismatched end tags and
`AutoClose` synthesizes the rest). -/
inductive WellNested : List Tok → Prop where
  | nil : WellNested []
  | text (s : String) {rest : List Tok} :
      WellNested rest → WellNested (.text s :: rest)
  | elem {name : String} {attrs : List (String × String)} {sc : Bool} {src srcC : String}
      {inner rest : List Tok} :
      WellNested inner → WellNested rest →
      WellNested (.start name attrs sc src :: inner ++ .close name srcC :: rest)

/-- One component-instrumentation hook invocation
(`ComponentInstrumentationEvent`; the wall-clock duration is not
modelled). -/
inductive Event where
  | stageBegin (component : String)
  | stageEnd (component : String) (err : Option RErr)
deriving DecidableEq, Repr

/-- The error carried by an end event. -/
def errOf : Except RErr α → Option RErr
  | .ok _ => none
  | .error e => some e

/-- Outcome of a streaming render: result, chunks written to the sink (one
entry per `writer.Write` call), and the instrumentation events fired. -/
structure StreamOut where
  res : Except RErr Unit
  writes : List String
  events : List Event
deriving Repr

/-- Outcome of rendering one component occurrence. -/
structure CompOut where
  res : Except RErr (List Tok)
  events : List Event
deriving Repr

/-- An augmenter registered with `WithComponentAugmenter` (Go mutates the
payload map in place; the model returns the updated payload). -/
structure Payload where
  props : List (String × AttrVal)
  attrs : List (String × String × AttrVal)
  ctx : Option Ctx
  data : GoVal
  root : GoVal
  component : String
  hasChildren : Bool
  childrenRaw : String
  children : String
  selfClosing : Bool

/-- Engine + render state as the rendering core consumes it.
`templates` abstracts `loadComponentTemplate` (the cache is invisible to
render results), yielding the compiled template's execute function, which
abstracts `tpl.Execute` composed with re-decoding the produced bytes.
`evalTpl` abstracts attribute-expression evaluation against the render
state (`state.funcs`, `state.data`). -/
structure AEngine where
  templates : String → Except RErr (Payload → Except RErr (List Tok))
  evalTpl : String → Except RErr String
  attrPolicies : List (String × AttrPolicy)
  augmenters : List (String × List (String → Payload → Except RErr Payload))
  ctx : Option Ctx
  data : GoVal
  streamingWrites : Bool
  finalTemplatePass : Bool
  finalTemplate : String → Except RErr String
  pagePipelines : List (List (String → Except RErr String))
  postProcessors : List (String → Except RErr String)

/-- Function `splitComponentBody` on the token model: `el` is the element's tokens
after the start tag through the matching close (as delivered by
`scanClose`), so the child markup is everything but the final close token;
the self-closing flag comes from the byte-level "/>" scan.  The Go
"no closing bracket" / "missing closing tag" failures concern raw byte
spans the scanner never produces. -/
def splitComponentBody (startTok : Tok) (el : List Tok) : Except RErr (List Tok × Bool) :=
  match startTok with
  | .start _ _ sc _ => if sc then .ok ([], true) else .ok (el.dropLast, false)
  | _ => .error (.other "not a component start tag")

/-- The `resolveAttrs` loop from `hc.go`. -/
def resolveAttrsGo (evalTpl : String → Except RErr String) :
    List (String × String) → List (String × AttrVal) →
    List (String × String × AttrVal) →
    Except RErr (List (String × AttrVal) × List (String × String × AttrVal))
  | [], props, resolved => .ok (props, resolved)
  | (name, value) :: rest, props, resolved =>
    match evaluateAttr evalTpl value with
    | .error err => .error (.wrapAttr name err)
    | .ok v =>
      let canonical := goToLower name
      resolveAttrsGo evalTpl rest (goMapInsert props canonical v)
        (resolved ++ [(name, canonical, v)])

/-- Function `resolveAttrs` from `hc.go`: evaluate each attribute, keyed lower-cased
in `props`, order- and case-preserving in `resolved`. -/
def resolveAttrs (evalTpl : String → Except RErr String) (attrs : List (String × String)) :
    Except RErr (List (String × AttrVal) × List (String × String × AttrVal)) :=
  resolveAttrsGo evalTpl attrs [] []

/-- Run a list of augmenters in order, stopping at the first failure. -/
def runAugList : List (String → Payload → Except RErr Payload) → String → Payload →
    Except RErr Payload
  | [], _, p => .ok p
  | a :: rest, n, p =>
    match a n p with
    | .error e => .error e
    | .ok p2 => runAugList rest n p2

/-- Function `applyComponentAugmenters` from `hc.go`: wildcard augmenters first,
then the component's own (looked up lower-cased). -/
def applyComponentAugmenters (e : AEngine) (component : String) (p : Payload) :
    Except RErr Payload :=
  if e.augmenters.isEmpty then .ok p
  else
    match runAugList ((lookupKey e.augmenters "*").getD []) component p with
    | .error err => .error err
    | .ok p1 => runAugList ((lookupKey e.augmenters (goToLower component)).getD []) component p1

/-- Function `renderMarkupBytes`: run the stream renderer into a fresh buffer and
return the accumulated bytes (`sg` is the streaming renderer to use). -/
def renderMarkupBytesWith (sg : List Tok → List Tok → Nat → StreamOut)
    (toks : List Tok) (depth : Nat) : Except RErr String × List Event :=
  let o := sg toks [] depth
  (match o.res with
   | .error err => .error err
   | .ok _ => .ok (String.join o.writes), o.events)

/-- The tail of `renderComponent`'s body after the child render, in the
exact order of `hc.go`: attribute resolution, attribute validation,
payload construction, augmenters, template execution.  None of these
steps fires instrumentation events, so it is factored out as a pure
function of the child-render outcome. -/
def renderComponentFinish (e : AEngine) (exec : Payload → Except RErr (List Tok))
    (startTok : Tok) (children : List Tok) (selfClosing : Bool)
    (childRes : Except RErr String) : Except RErr (List Tok) :=
  match childRes with
  | .error err => .error err
  | .ok childrenStr =>
    match resolveAttrs e.evalTpl startTok.attrsOf with
    | .error err => .error err
    | .ok (props, resolved) =>
      match validateAttributes e.attrPolicies startTok.nameOf props with
      | .error err => .error err
      | .ok _ =>
        let payload : Payload :=
          { props := props, attrs := resolved,
            ctx := e.ctx, data := e.data, root := e.data,
            component := startTok.nameOf,
            hasChildren := !(bytesOf children == ""),
            childrenRaw := bytesOf children,
            children := childrenStr,
            selfClosing := selfClosing }
        match applyComponentAugmenters e startTok.nameOf payload with
        | .error err => .error err
        | .ok payload2 =>
          match exec payload2 with
          | .error err => .error (.wrapComponent startTok.nameOf err)
          | .ok out => .ok out

/-- The body of `renderComponent` (everything between the instrumentation
begin and the deferred end), in the exact order of `hc.go`: depth check,
template load, body split, child render, then the event-free tail
(`renderComponentFinish`).  The returned events are those fired while
rendering the children. -/
def renderComponentBodyWith (e : AEngine) (sg : List Tok → List Tok → Nat → StreamOut)
    (startTok : Tok) (el : List Tok) (depth : Nat) :
    Except RErr (List Tok) × List Event :=
  if depth > maxComponentPasses then (.error .passLimit, [])
  else
    match e.templates startTok.nameOf with
    | .error err => (.error err, [])
    | .ok exec =>
      match splitComponentBody startTok el with
      | .error err => (.error err, [])
      | .ok (children, selfClosing) =>
        let childOut :=
          if bytesOf children = "" then (.ok "", [])
          else renderMarkupBytesWith sg children (depth + 1)
        (renderComponentFinish e exec startTok children selfClosing childOut.1, childOut.2)

/-- Function `renderComponent` from `hc.go`: fire the begin event, run the body,
and — mirroring the deferred hook — fire exactly one end event carrying
the body's error (or nil).  Each recorded event stands for one invocation
of every registered hook. -/
def renderComponentWith (e : AEngine) (sg : List Tok → List Tok → Nat → StreamOut)
    (startTok : Tok) (el : List Tok) (depth : Nat) : CompOut :=
  let name := startTok.nameOf
  let body := renderComponentBodyWith e sg startTok el depth
  { res := body.1,
    events := .stageBegin name :: (body.2 ++ [.stageEnd name (errOf body.1)]) }

/-- Flush the literal bytes accumulated since the cursor: one `Write` call
when the span is nonempty (`start > cursor` resp. `cursor < len(input)`). -/
def flushChunk (pending : List Tok) : List String :=
  let b := bytesOf pending
  if b = "" then [] else [b]

/-- Function `renderMarkupStream` from `hc.go` on the token model.  `pending` holds
the tokens between the write cursor and the scan position.  `fuel` is the
model's termination device only (the Go loop has none; in Go the depth
check in `renderComponent` bounds the recursion): it decreases on every
recursive call and `fuelOut` is unreachable for sufficiently large fuel on
any terminating run. -/
def streamGo (e : AEngine) : Nat → List Tok → List Tok → Nat → StreamOut
  | 0, _, _, _ => ⟨.error .fuelOut, [], []⟩
  | _ + 1, [], pending, _ => ⟨.ok (), flushChunk pending, []⟩
  | fuel + 1, t :: rest, pending, depth =>
    if t.isComponentStart then
      match scanClose rest 1 with
      | none => ⟨.error (.unclosedTag t.nameOf), [], []⟩
      | some (el, after) =>
        let pre := flushChunk pending
        let c := renderComponentWith e (streamGo e fuel) t el (depth + 1)
        match c.res with
        | .error err => ⟨.error err, pre, c.events⟩
        | .ok rendered =>
          let s1 := streamGo e fuel rendered [] (depth + 1)
          match s1.res with
          | .error err => ⟨.error err, pre ++ s1.writes, c.events ++ s1.events⟩
          | .ok _ =>
            let s2 := streamGo e fuel after [] depth
            ⟨s2.res, pre ++ s1.writes ++ s2.writes, c.events ++ s1.events ++ s2.events⟩
    else
      streamGo e fuel rest (pending ++ [t]) depth

/-- Function `renderComponent` at a given fuel level (the form `streamGo` invokes). -/
def renderComponent (e : AEngine) (fuel : Nat) (startTok : Tok) (el : List Tok)
    (depth : Nat) : CompOut :=
  renderComponentWith e (streamGo e fuel) startTok el depth

/-- Fold one post-processor list (`nil` byte results cannot arise in the
string model; Go coerces them to empty). -/
def runProcs : List (String → Except RErr String) → String → Except RErr String
  | [], s => .ok s
  | p :: rest, s =>
    match p s with
    | .error e => .error e
    | .ok s2 => runProcs rest s2

/-- Run the registered page pipelines in order. -/
def runPipelines : List (List (String → Except RErr String)) → String →
    Except RErr String
  | [], s => .ok s
  | pl :: rest, s =>
    match runProcs pl s with
    | .error e => .error e
    | .ok s2 => runPipelines rest s2

/-- Function `applyPostProcessing` from `hc.go`: optional final template pass, then
every page pipeline, then the standalone post-processors. -/
def applyPostProcessing (e : AEngine) (input : String) (enableFinal : Bool) :
    Except RErr String :=
  match (if enableFinal then e.finalTemplate input else .ok input) with
  | .error err => .error err
  | .ok cur1 =>
    match runPipelines e.pagePipelines cur1 with
    | .error err => .error err
    | .ok cur2 => runProcs e.postProcessors cur2

/-- Function `ParseFileContext` from `hc.go`.  File reading is abstracted: `raw` is
the decoded token stream of the named file (the empty-file check mirrors
`len(raw) == 0`); `writerPresent` models `writer != nil`; the merged
function map, data augmenter and `dataWithContext` of
`prepareRenderState` are folded into the engine's `evalTpl`, `templates`
and `data`. -/
def ParseFileContext (e : AEngine) (fuel : Nat) (writerPresent : Bool) (raw : List Tok) :
    StreamOut :=
  if bytesOf raw = "" then ⟨.error .emptyFile, [], []⟩
  else
    let canStream := e.streamingWrites && writerPresent && !e.finalTemplatePass &&
      e.postProcessors.isEmpty && e.pagePipelines.isEmpty
    if canStream then
      if writerPresent then streamGo e fuel raw [] 0
      else ⟨.error (.other "streaming requires a writer"), [], []⟩
    else
      match renderMarkupBytesWith (streamGo e fuel) raw 0 with
      | (.error err, evs) => ⟨.error err, [], evs⟩
      | (.ok rendered, evs) =>
        match applyPostProcessing e rendered e.finalTemplatePass with
        | .error err => ⟨.error err, [], evs⟩
        | .ok final =>
          if writerPresent then ⟨.ok (), [final], evs⟩
          else ⟨.ok (), [], evs⟩

/-! ### Spec-side definitions and concrete instances used by the claims -/

/-- The cache key exactly as the claim words it: `cacheKeyFn` result when
configured and (trimmed) nonempty, else the lower-cased name; the resolved
locale is the extractor result as-is, falling back to the default locale
when that result is empty, prefixed verbatim as `locale:key`. -/
def cacheKeySpecClaim (eng : CEngine) (ctx : Ctx) (name : String) : String :=
  let base :=
    match eng.cacheKeyFunc with
    | some f =>
      let k := goTrimSpace (f ctx name)
      if k = "" then goToLower name else k
    | none => goToLower name
  match eng.localeExtractor with
  | none => base
  | some ext =>
    let locale := if ext ctx = "" then eng.localeFallback else ext ctx
    if locale = "" then base else locale ++ ":" ++ base

/-- The claim amended to what the code does with the locale: the resolved
locale is the *whitespace-trimmed* extractor result, falling back to the
configured default locale when the trimmed result is empty, and it is
*lower-cased* before being prefixed as `locale:key`. -/
def cacheKeySpecAmended (eng : CEngine) (ctx : Ctx) (name : String) : String :=
  let base :=
    match eng.cacheKeyFunc with
    | some f =>
      let k := goTrimSpace (f ctx name)
      if k ≠ "" then k else goToLower name
    | none => goToLower name
  let locale :=
    match eng.localeExtractor with
    | none => none
    | some ext =>
      let l := goTrimSpace (ext ctx)
      some (if l = "" then eng.localeFallback else l)
  match locale with
  | none => base
  | some l => if l ≠ "" then goToLower l ++ ":" ++ base else base

/-- Engine whose locale extractor yields the upper-case locale "EN". -/
def cengEN : CEngine :=
  { hasFuncMapProvider := false
    cacheKeyFunc := none
    localeExtractor := some (fun _ => "EN")
    localeFallback := ""
    readComponentFile := fun n => .error (.notFound n)
    compile := fun c => .ok c }

/-- A cache-layer engine with a func-map provider configured. -/
def cengProv : CEngine :=
  { hasFuncMapProvider := true
    cacheKeyFunc := none
    localeExtractor := none
    localeFallback := ""
    readComponentFile := fun n => .ok ("<div></div>", "web/components/" ++ goToLower n ++ ".html")
    compile := fun c => .ok c }

/-- A render engine with no components, no hooks and no stages. -/
def baseAEngine : AEngine :=
  { templates := fun n => .error (.notFound n)
    evalTpl := fun s => .ok s
    attrPolicies := []
    augmenters := []
    ctx := none
    data := .nilV
    streamingWrites := false
    finalTemplatePass := false
    finalTemplate := fun s => .ok s
    pagePipelines := []
    postProcessors := [] }

/-- The self-re-emitting fragment `<A/>` (start token plus the zero-width
synthesized close). -/
def loopFragment : List Tok := [.start "A" [] true "<A/>", .close "A" ""]

/-- Engine whose component `A` expands to markup containing `A` again. -/
def loopEngine : AEngine :=
  { baseAEngine with
    templates := fun n =>
      if n = "A" then .ok (fun _ => .ok loopFragment) else .error (.notFound n) }

/-- A page whose top-level component re-emits itself forever. -/
def loopDoc : List Tok := loopFragment

/-- Number of successful component passes recorded in a trace (end events
carrying no error). -/
def countPassEnds (evs : List Event) : Nat :=
  (evs.filter (fun ev => match ev with | .stageEnd _ none => true | _ => false)).length

/-- Streaming-enabled engine with one component `B` expanding to literal
text. -/
def streamEngine : AEngine :=
  { baseAEngine with
    streamingWrites := true
    templates := fun n =>
      if n = "B" then .ok (fun _ => .ok [.text "x"]) else .error (.notFound n) }

/-- The same engine with a final template pass configured. -/
def bufferedEngine : AEngine := { streamEngine with finalTemplatePass := true }

/-- A page with one component occurrence and literal text around it. -/
def pageDoc : List Tok := [.text "a", .start "B" [] true "<B/>", .close "B" "", .text "c"]

/-- Balanced instrumentation traces: a concatenation of blocks, each a
begin event, a balanced inner trace, and one matching end event. -/
inductive BalTrace : List Event → Prop where
  | nil : BalTrace []
  | block {n : String} {e : Option RErr} {inner rest : List Event} :
      BalTrace inner → BalTrace rest →
      BalTrace (.stageBegin n :: inner ++ .stageEnd n e :: rest)

/-- The policy registration of the spec's Button example: `label` is
required, nothing else is allowed. -/
def buttonPolicies : List (String × AttrPolicy) :=
  withAttrRules "Button" [RequireAttrs ["label"]] []

/-! ### Shared lemmas -/

theorem lookupKey_goMapInsert (m : List (String × α)) (k k2 : String) (v : α) :
    lookupKey (goMapInsert m k v) k2 = if k = k2 then some v else lookupKey m k2 := by
  induction m with
  | nil => simp [goMapInsert, lookupKey]
  | cons hd tl ih =>
    obtain ⟨k3, v3⟩ := hd
    by_cases h3 : k3 = k
    · subst h3
      by_cases h2 : k3 = k2 <;> simp [goMapInsert, lookupKey, h2]
    · by_cases h2 : k3 = k2
      · subst h2
        have : ¬ k = k3 := fun h => h3 h.symm
        simp [goMapInsert, lookupKey, h3, this]
      · simp [goMapInsert, lookupKey, h3, h2, ih]

theorem lookupKey_append (m l2 : List (String × α)) (k : String) :
    lookupKey (m ++ l2) k =
      (match lookupKey m k with
       | some v => some v
       | none => lookupKey l2 k) := by
  induction m with
  | nil => simp [lookupKey]
  | cons hd tl ih =>
    obtain ⟨k2, v2⟩ := hd
    by_cases h : k2 = k <;> simp [lookupKey, h, ih]

/-! ### C5 — cache key construction -/

/-- C5 (corrected, counterexample): with a locale extractor returning
"EN", the code produces the lower-cased prefix "en:button", not the
claim's verbatim "EN:button". -/
theorem claim_c5_counterexample :
    cacheKey cengEN 0 "Button" = "en:button" ∧
    cacheKeySpecClaim cengEN 0 "Button" = "EN:button" ∧
    cacheKey cengEN 0 "Button" ≠ cacheKeySpecClaim cengEN 0 "Button" := by
  refine ⟨by decide, by decide, by decide⟩

/-- C5 (amended): the compiled-template cache key equals the configured
cache-key function's trimmed result when nonempty, else the lower-cased
component name; when a locale extractor is configured, the resolved locale
(the trimmed extractor result, falling back to the configured default
locale when that is empty) is lower-cased and prefixed as `locale:key`
(no prefix when both are empty). -/
theorem claim_c5 (eng : CEngine) (ctx : Ctx) (name : String) :
    cacheKey eng ctx name = cacheKeySpecAmended eng ctx name := by
  unfold cacheKey cacheKeySpecAmended
  cases hf : eng.cacheKeyFunc <;> cases hl : eng.localeExtractor <;> rfl

/-! ### C6 — attribute evaluation and coercion -/

/-- C6 (corrected, counterexample): a successfully evaluated result of
" true " — which is neither exactly "true" nor exactly "false" — is still
coerced to a boolean, because `interpretAttrValue` trims before
comparing; so "every other successfully evaluated result remains a
string" fails. -/
theorem claim_c6_counterexample :
    evaluateAttr (fun _ => .ok " true ") "x" = .ok (.boolean true) ∧
    " true " ≠ "true" ∧ " true " ≠ "false" :=
  ⟨rfl, by decide, by decide⟩

/-- C6 (amended): empty or whitespace-only attribute expressions evaluate
to the empty string without invoking the templating engine (the result is
the same for every engine); otherwise the engine's successful result is
interpreted: if its *trimmed* form is exactly "true" or "false" it is
coerced to the corresponding boolean, a whitespace-only result collapses
to the empty string, and every other result remains the untrimmed
string. -/
theorem claim_c6 :
    (∀ raw, goTrimSpace raw = "" →
      ∀ f : String → Except RErr String, evaluateAttr f raw = .ok (.str "")) ∧
    (∀ (f : String → Except RErr String) raw s, goTrimSpace raw ≠ "" → f raw = .ok s →
      evaluateAttr f raw = .ok (interpretAttrValue s)) ∧
    (∀ s, goTrimSpace s = "true" → interpretAttrValue s = .boolean true) ∧
    (∀ s, goTrimSpace s = "false" → interpretAttrValue s = .boolean false) ∧
    (∀ s, goTrimSpace s = "" → interpretAttrValue s = .str "") ∧
    (∀ s, goTrimSpace s ≠ "" → goTrimSpace s ≠ "true" → goTrimSpace s ≠ "false" →
      interpretAttrValue s = .str s) := by
  refine ⟨?_, ?_, ?_, ?_, ?_, ?_⟩
  · intro raw h f
    simp [evaluateAttr, h]
  · intro f raw s hraw hres
    simp [evaluateAttr, hraw, hres]
  · intro s h
    simp [interpretAttrValue, h]
  · intro s h
    simp [interpretAttrValue, h]
  · intro s h
    simp [interpretAttrValue, h]
  · intro s h h1 h2
    simp [interpretAttrValue, h, h1, h2]

/-- Witness for C6 at concrete inputs. -/
theorem claim_c6_witness :
    evaluateAttr (fun _ => .ok "ignored") "  " = .ok (.str "") ∧
    interpretAttrValue " true " = .boolean true ∧
    interpretAttrValue "false" = .boolean false ∧
    interpretAttrValue "  " = .str "" ∧
    interpretAttrValue "abc" = .str "abc" :=
  ⟨claim_c6.1 "  " (by decide) _,
   claim_c6.2.2.1 " true " (by decide),
   claim_c6.2.2.2.1 "false" (by decide),
   claim_c6.2.2.2.2.1 "  " (by decide),
   claim_c6.2.2.2.2.2 "abc" (by decide) (by decide) (by decide)⟩

/-! ### C9 — context injection into caller data -/

/-- C9 (corrected, counterexample): a caller map that already contains a
"Ctx" key is returned as-is — no copy is made and the execution context
is not injected (the stored value remains the caller's "x"). -/
theorem claim_c9_counterexample :
    dataWithContext (some 0) (.strMap [("Ctx", .str "x")]) = .strMap [("Ctx", .str "x")] ∧
    GoVal.str "x" ≠ GoVal.ctxV 0 :=
  ⟨rfl, fun h => by cases h⟩

/-- C9 (amended): for a non-nil context and a `map[string]any` data value,
when the caller's map has no "Ctx" key the render state's root data is a
shallow copy holding all original entries plus "Ctx" bound to the
execution context (the caller's map is never mutated — the embedding
builds a new list from the entries); a map that already contains "Ctx" is
used as-is, unchanged. -/
theorem claim_c9 (c : Ctx) (m : List (String × GoVal)) :
    (lookupKey m "Ctx" = none →
      dataWithContext (some c) (.strMap m) = .strMap (m ++ [("Ctx", .ctxV c)]) ∧
      lookupKey (m ++ [("Ctx", .ctxV c)]) "Ctx" = some (.ctxV c) ∧
      (∀ k, k ≠ "Ctx" → lookupKey (m ++ [("Ctx", .ctxV c)]) k = lookupKey m k)) ∧
    ((lookupKey m "Ctx").isSome → dataWithContext (some c) (.strMap m) = .strMap m) ∧
    dataWithContext (some c) .nilV = .strMap [("Ctx", .ctxV c)] := by
  refine ⟨?_, ?_, rfl⟩
  · intro h
    refine ⟨by simp [dataWithContext, h], ?_, ?_⟩
    · rw [lookupKey_append, h]
      simp [lookupKey]
    · intro k hk
      rw [lookupKey_append]
      cases h2 : lookupKey m k with
      | some v => rfl
      | none =>
        have h3 : ¬ ("Ctx" = k) := fun h4 => hk h4.symm
        simp [lookupKey, h3]
  · intro h
    simp [dataWithContext, h]

/-- Witness for C9 at a concrete map without a "Ctx" key. -/
theorem claim_c9_witness :
    dataWithContext (some 7) (.strMap [("Message", .str "hi")]) =
      .strMap [("Message", .str "hi"), ("Ctx", .ctxV 7)] :=
  ((claim_c9 7 [("Message", .str "hi")]).1 rfl).1

/-! ### C10 — dynamic function registry overrides static -/

theorem lookupKey_none_of_not_mem_keys (l : List (String × α)) (k : String)
    (h : k ∉ l.map Prod.fst) : lookupKey l k = none := by
  induction l with
  | nil => rfl
  | cons hd tl ih =>
    obtain ⟨k2, v2⟩ := hd
    simp only [List.map_cons, List.mem_cons, not_or] at h
    have h1 : ¬ k2 = k := fun h3 => h.1 h3.symm
    simp [lookupKey, h1, ih h.2]

theorem lookupKey_foldl_insert_none (l : List (String × Fn)) (k : String)
    (h : lookupKey l k = none) (acc : List (String × Fn)) :
    lookupKey (l.foldl (fun acc kv => goMapInsert acc kv.1 kv.2) acc) k =
      lookupKey acc k := by
  induction l generalizing acc with
  | nil => rfl
  | cons hd tl ih =>
    obtain ⟨k2, v2⟩ := hd
    simp only [lookupKey] at h
    by_cases h2 : k2 = k
    · simp [h2] at h
    · simp only [h2, if_false] at h
      rw [List.foldl_cons, ih h, lookupKey_goMapInsert]
      simp [h2]

/-- C10: merging the static registry with the per-render provider's output
resolves every name defined by the provider to the provider's function
(dynamic overrides static), and leaves every other name bound as in the
static registry.  (The Go map has unique keys, whence the `Nodup`
hypothesis on the association list.) -/
theorem claim_c10 (staticFuncs : List (String × Fn)) (provider : Ctx → List (String × Fn))
    (ctx : Ctx) (name : String) :
    (∀ fn, ((provider ctx).map Prod.fst).Nodup →
      lookupKey (provider ctx) name = some fn →
      lookupKey (mergedFuncMap staticFuncs (some provider) ctx) name = some fn) ∧
    (lookupKey (provider ctx) name = none →
      lookupKey (mergedFuncMap staticFuncs (some provider) ctx) name =
        lookupKey staticFuncs name) := by
  constructor
  · intro fn hnodup hlook
    have hne : (provider ctx).isEmpty = false := by
      cases hp : provider ctx with
      | nil => rw [hp] at hlook; simp [lookupKey] at hlook
      | cons hd tl => simp [List.isEmpty]
    simp only [mergedFuncMap, hne, Bool.false_eq_true, if_false]
    revert hlook hnodup
    generalize provider ctx = dyn
    intro hnodup hlook
    induction dyn generalizing staticFuncs with
    | nil => simp [lookupKey] at hlook
    | cons hd tl ih =>
      obtain ⟨k2, v2⟩ := hd
      simp only [List.map_cons, List.nodup_cons] at hnodup
      rw [List.foldl_cons]
      by_cases h2 : k2 = name
      · subst h2
        have hv : v2 = fn := by simpa [lookupKey] using hlook
        subst hv
        rw [lookupKey_foldl_insert_none tl k2
          (lookupKey_none_of_not_mem_keys tl k2 hnodup.1),
          lookupKey_goMapInsert]
        simp
      · have hlook2 : lookupKey tl name = some fn := by
          simpa [lookupKey, h2] using hlook
        exact ih _ hnodup.2 hlook2
  · intro hnone
    cases hp : (provider ctx).isEmpty
    · simp only [mergedFuncMap, hp, Bool.false_eq_true, if_false]
      exact lookupKey_foldl_insert_none _ _ hnone _
    · simp [mergedFuncMap, hp]

/-- Witness for C10: static and dynamic both define "upper"; the merged
registry resolves it to the dynamic one, and an unrelated static binding
survives. -/
theorem claim_c10_witness :
    lookupKey (mergedFuncMap [("upper", 1), ("lower", 3)]
      (some (fun _ => [("upper", 2)])) 0) "upper" = some 2 ∧
    lookupKey (mergedFuncMap [("upper", 1), ("lower", 3)]
      (some (fun _ => [("upper", 2)])) 0) "lower" = some 3 :=
  ⟨(claim_c10 [("upper", 1), ("lower", 3)] (fun _ => [("upper", 2)]) 0 "upper").1 2
      (by decide) (by decide),
   (claim_c10 [("upper", 1), ("lower", 3)] (fun _ => [("upper", 2)]) 0 "lower").2
      (by decide)⟩

/-! ### C7 — attribute policy validation -/

/-- C7: with a policy registered for the component, validation fails with
a "missing required attr" error iff some required attribute is absent;
otherwise, without "allow others", it fails with an "unsupported attr"
error iff some present attribute is outside the allowed set; with
"allow others" (or no registered policy) non-required attributes never
cause failure; and policies built by `WithAttrRules` satisfy
required ⊆ allowed. -/
theorem claim_c7 :
    (∀ (policies : List (String × AttrPolicy)) component props policy,
      lookupKey policies (goToLower component) = some policy →
      (((∃ a, validateAttributes policies component props =
            .error (.missingRequired component a)) ↔
          ∃ r ∈ policy.required, lookupKey props r = none) ∧
       (policy.allowOthers = false →
        (∀ r ∈ policy.required, (lookupKey props r).isSome) →
        ((∃ a, validateAttributes policies component props =
             .error (.unsupportedAttr component a)) ↔
          ∃ pr ∈ props, pr.1 ∉ policy.allowed)) ∧
       (policy.allowOthers = true →
        (validateAttributes policies component props = .ok () ↔
          ∀ r ∈ policy.required, (lookupKey props r).isSome)))) ∧
    (∀ (policies : List (String × AttrPolicy)) component props,
      lookupKey policies (goToLower component) = none →
      validateAttributes policies component props = .ok ()) ∧
    (∀ component opts policies0 policy, goTrimSpace component ≠ "" →
      lookupKey (withAttrRules component opts policies0)
          (goToLower (goTrimSpace component)) = some policy →
      ∀ r ∈ policy.required, r ∈ policy.allowed) := by
  refine ⟨?_, ?_, ?_⟩
  · intro policies component props policy hpol
    have hne : policies.isEmpty = false := by
      cases policies with
      | nil => simp [lookupKey] at hpol
      | cons hd tl => rfl
    have hval : validateAttributes policies component props =
        (match policy.required.find? (fun req => (lookupKey props req).isNone) with
         | some req => .error (.missingRequired component req)
         | none =>
           if policy.allowOthers then .ok ()
           else
             match props.find? (fun pr => decide (pr.1 ∉ policy.allowed)) with
             | some pr => .error (.unsupportedAttr component pr.1)
             | none => .ok ()) := by
      simp [validateAttributes, hne, hpol]
    refine ⟨?_, ?_, ?_⟩
    · cases hfind : policy.required.find? (fun req => (lookupKey props req).isNone) with
      | some req =>
        rw [hval, hfind]
        constructor
        · intro _
          refine ⟨req, List.mem_of_find?_eq_some hfind, ?_⟩
          simpa using List.find?_some hfind
        · intro _
          exact ⟨req, rfl⟩
      | none =>
        rw [hval, hfind]
        constructor
        · intro ⟨a, ha⟩
          by_cases hao : policy.allowOthers
          · simp [hao] at ha
          · simp only [hao, if_false] at ha
            cases hfind2 : props.find? (fun pr => decide (pr.1 ∉ policy.allowed)) with
            | some pr => rw [hfind2] at ha; simp at ha
            | none => rw [hfind2] at ha; simp at ha
        · intro ⟨r, hr, hnone⟩
          have := List.find?_eq_none.mp hfind r hr
          simp [hnone] at this
    · intro hao hreq
      have hfind : policy.required.find? (fun req => (lookupKey props req).isNone) = none := by
        refine List.find?_eq_none.mpr ?_
        intro r hr
        have := hreq r hr
        simp [Option.isNone_iff_eq_none]
        exact Option.isSome_iff_ne_none.mp this
      rw [hval, hfind]
      simp only [hao, if_false]
      cases hfind2 : props.find? (fun pr => decide (pr.1 ∉ policy.allowed)) with
      | some pr =>
        constructor
        · intro _
          refine ⟨pr, List.mem_of_find?_eq_some hfind2, ?_⟩
          have hp := List.find?_some hfind2
          exact of_decide_eq_true hp
        · intro _
          exact ⟨pr.1, rfl⟩
      | none =>
        constructor
        · intro ⟨a, ha⟩
          simp at ha
        · intro ⟨pr, hmem, hnotin⟩
          have hp := List.find?_eq_none.mp hfind2 pr hmem
          simp at hp
          exact absurd hp hnotin
    · intro hao
      cases hfind : policy.required.find? (fun req => (lookupKey props req).isNone) with
      | some req =>
        rw [hval, hfind]
        constructor
        · intro h
          simp at h
        · intro hreq
          have h1 := hreq req (List.mem_of_find?_eq_some hfind)
          have h2 := List.find?_some hfind
          rw [Option.isNone_iff_eq_none] at h2
          rw [h2] at h1
          simp at h1
      | none =>
        rw [hval, hfind]
        simp only [hao, if_true]
        constructor
        · intro _ r hr
          have hp := List.find?_eq_none.mp hfind r hr
          simpa [Option.isNone_iff_eq_none, ← Option.isSome_iff_ne_none] using hp
        · intro _
          trivial
  · intro policies component props hpol
    cases hne : policies.isEmpty with
    | true => simp [validateAttributes, hne]
    | false => simp [validateAttributes, hne, hpol]
  · intro component opts policies0 policy hname hlook r hr
    simp [withAttrRules, if_neg hname, lookupKey_goMapInsert] at hlook
    subst hlook
    exact List.mem_append_right _ hr

/-- Witness for C7: the spec's Button example — `label` required and no
others allowed; `data-id` triggers an "unsupported attr" failure. -/
theorem claim_c7_witness :
    ∃ a, validateAttributes buttonPolicies "Button"
        [("label", AttrVal.str "Save"), ("data-id", AttrVal.str "123")] =
      .error (.unsupportedAttr "Button" a) :=
  ((claim_c7.1 buttonPolicies "Button"
      [("label", AttrVal.str "Save"), ("data-id", AttrVal.str "123")]
      ⟨["label"], ["label"], false⟩ rfl).2.1 rfl (by decide)).mpr
    ⟨("data-id", AttrVal.str "123"), by decide, by decide⟩

/-! ### C4 — cache discipline under a dynamic function-map provider -/

theorem getComponentSource_entries (eng : CEngine) (st : CacheState) (name : String) :
    (getComponentSource eng st name).st.entries = st.entries := by
  cases h : lookupKey st.sources (goToLower name) with
  | some src => simp [getComponentSource, h]
  | none =>
    cases h2 : eng.readComponentFile name with
    | error e => simp [getComponentSource, h, h2]
    | ok cs => simp [getComponentSource, h, h2]

theorem getComponentSource_indep (eng : CEngine) (e1 e2 : List (String × String))
    (srcs : List (String × (String × String))) (name : String) :
    (getComponentSource eng ⟨e1, srcs⟩ name).res = (getComponentSource eng ⟨e2, srcs⟩ name).res ∧
    (getComponentSource eng ⟨e1, srcs⟩ name).st.sources =
      (getComponentSource eng ⟨e2, srcs⟩ name).st.sources ∧
    (getComponentSource eng ⟨e1, srcs⟩ name).readFS =
      (getComponentSource eng ⟨e2, srcs⟩ name).readFS := by
  cases h : lookupKey srcs (goToLower name) with
  | some src => simp [getComponentSource, h]
  | none =>
    cases h2 : eng.readComponentFile name with
    | error e => simp [getComponentSource, h, h2]
    | ok cs => simp [getComponentSource, h, h2]

theorem loadComponentTemplate_provider (eng : CEngine) (ctx : Ctx) (st : CacheState)
    (name : String) (hprov : eng.hasFuncMapProvider = true) :
    loadComponentTemplate eng ctx st name =
      (let so := getComponentSource eng st name
       match so.res with
       | .error err => ⟨.error err, so.st, so.readFS⟩
       | .ok cs =>
         match eng.compile cs.1 with
         | .error _ => ⟨.error (.parseFailed name cs.2), so.st, so.readFS⟩
         | .ok tpl => ⟨.ok tpl, so.st, so.readFS⟩) := by
  simp [loadComponentTemplate, hprov]

/-- C4: with a per-render function-map provider configured,
`loadComponentTemplate` neither reads from nor writes to the
compiled-template cache — `entries` is preserved by every call and the
outcome does not depend on it (so it stays empty across any sequence of
renders) — while `getComponentSource` still populates and reuses the
source cache: after a successful load the source is cached, and a second
lookup for the same component returns it without consulting the file
system or changing the cache. -/
theorem claim_c4 :
    (∀ (eng : CEngine) (ctx : Ctx) (st : CacheState) (name : String),
      eng.hasFuncMapProvider = true →
      (loadComponentTemplate eng ctx st name).st.entries = st.entries ∧
      (∀ entries2,
        (loadComponentTemplate eng ctx ⟨entries2, st.sources⟩ name).res =
          (loadComponentTemplate eng ctx st name).res ∧
        (loadComponentTemplate eng ctx ⟨entries2, st.sources⟩ name).st.sources =
          (loadComponentTemplate eng ctx st name).st.sources ∧
        (loadComponentTemplate eng ctx ⟨entries2, st.sources⟩ name).readFS =
          (loadComponentTemplate eng ctx st name).readFS)) ∧
    (∀ (eng : CEngine) (st : CacheState) (name : String) (v : String × String),
      (getComponentSource eng st name).res = .ok v →
      lookupKey (getComponentSource eng st name).st.sources (goToLower name) = some v ∧
      getComponentSource eng (getComponentSource eng st name).st name =
        ⟨.ok v, (getComponentSource eng st name).st, false⟩) := by
  constructor
  · intro eng ctx st name hprov
    constructor
    · rw [loadComponentTemplate_provider eng ctx st name hprov]
      simp only []
      cases hres : (getComponentSource eng st name).res with
      | error err => simp [hres, getComponentSource_entries]
      | ok cs =>
        cases hc : eng.compile cs.1 with
        | error e => simp [hres, hc, getComponentSource_entries]
        | ok tpl => simp [hres, hc, getComponentSource_entries]
    · intro entries2
      rw [loadComponentTemplate_provider eng ctx st name hprov,
        loadComponentTemplate_provider eng ctx ⟨entries2, st.sources⟩ name hprov]
      simp only []
      have hst : st = ⟨st.entries, st.sources⟩ := rfl
      obtain ⟨hres, hsrc, hread⟩ :=
        getComponentSource_indep eng entries2 st.entries st.sources name
      rw [hst]
      cases h2 : (getComponentSource eng ⟨st.entries, st.sources⟩ name).res with
      | error err =>
        rw [hres, h2]
        simp [hsrc, hread]
      | ok cs =>
        rw [hres, h2]
        cases hc : eng.compile cs.1 with
        | error e => simp [hc, hsrc, hread]
        | ok tpl => simp [hc, hsrc, hread]
  · intro eng st name v hres
    cases h : lookupKey st.sources (goToLower name) with
    | some src =>
      have he : getComponentSource eng st name = ⟨.ok src, st, false⟩ := by
        simp [getComponentSource, h]
      rw [he] at hres
      have hv : src = v := by simpa using hres
      subst hv
      rw [he]
      exact ⟨h, by simp [getComponentSource, h]⟩
    | none =>
      cases h2 : eng.readComponentFile name with
      | error e =>
        have he : getComponentSource eng st name = ⟨.error e, st, true⟩ := by
          simp [getComponentSource, h, h2]
        rw [he] at hres
        simp at hres
      | ok cs =>
        have he : getComponentSource eng st name =
            ⟨.ok cs, { st with sources := goMapInsert st.sources (goToLower name) cs }, true⟩ := by
          simp [getComponentSource, h, h2]
        rw [he] at hres
        have hv : cs = v := by simpa using hres
        subst hv
        rw [he]
        constructor
        · simp [lookupKey_goMapInsert]
        · simp [getComponentSource, lookupKey_goMapInsert]

/-- Witness for C4 on a concrete provider-configured engine and empty
caches. -/
theorem claim_c4_witness :
    (loadComponentTemplate cengProv 0 ⟨[], []⟩ "Card").st.entries = [] ∧
    getComponentSource cengProv (getComponentSource cengProv ⟨[], []⟩ "Card").st "Card" =
      ⟨.ok ("<div></div>", "web/components/card.html"),
       (getComponentSource cengProv ⟨[], []⟩ "Card").st, false⟩ :=
  ⟨(claim_c4.1 cengProv 0 ⟨[], []⟩ "Card" rfl).1,
   (claim_c4.2 cengProv ⟨[], []⟩ "Card" ("<div></div>", "web/components/card.html") rfl).2⟩

/-! ### C2 — component span scanning -/

theorem bytesOf_append (a b : List Tok) :
    bytesOf (a ++ b) = bytesOf a ++ bytesOf b := by
  induction a with
  | nil => simp [bytesOf]
  | cons t ts ih => simp [bytesOf, ih, String.append_assoc]

/-- Scanning a well-nested block never returns the depth to zero: the
block is consumed and the scan continues behind it at the same depth. -/
theorem scanClose_skip {inner : List Tok} (h : WellNested inner) :
    ∀ (d : Nat) (ts : List Tok),
      scanClose (inner ++ ts) (d + 1) =
        (match scanClose ts (d + 1) with
         | some (el, after) => some (inner ++ el, after)
         | none => none) := by
  induction h with
  | nil =>
    intro d ts
    cases hs : scanClose ts (d + 1) with
    | none => simp [hs]
    | some p => obtain ⟨el, af⟩ := p; simp [hs]
  | text s hr ih =>
    intro d ts
    rw [List.cons_append]
    simp only [scanClose, Nat.add_one_ne_zero, if_false]
    rw [ih d ts]
    cases hs : scanClose ts (d + 1) with
    | none => simp
    | some p => obtain ⟨el, af⟩ := p; simp
  | elem hi hr ihi ihr =>
    intro d ts
    rename_i name attrs sc src srcC innr restr
    rw [List.cons_append]
    simp only [scanClose, Nat.add_one_ne_zero, if_false, List.append_eq, List.append_assoc,
      List.cons_append]
    rw [ihi (d + 1) (Tok.close name srcC :: (restr ++ ts))]
    simp only [scanClose]
    have hd : d + 1 + 1 - 1 = d + 1 := by omega
    simp only [hd, Nat.add_one_ne_zero, if_false]
    rw [ihr d ts]
    cases hs : scanClose ts (d + 1) with
    | none => simp
    | some p =>
      obtain ⟨el, af⟩ := p
      simp [List.append_assoc, List.cons_append]

/-- The same skipping property for the specification's same-name-only
scan. -/
theorem scanCloseSame_skip (name : String) {inner : List Tok} (h : WellNested inner) :
    ∀ (d : Nat) (ts : List Tok),
      scanCloseSame name (inner ++ ts) (d + 1) =
        (match scanCloseSame name ts (d + 1) with
         | some (el, after) => some (inner ++ el, after)
         | none => none) := by
  induction h with
  | nil =>
    intro d ts
    cases hs : scanCloseSame name ts (d + 1) with
    | none => simp [hs]
    | some p => obtain ⟨el, af⟩ := p; simp [hs]
  | text s hr ih =>
    intro d ts
    rw [List.cons_append]
    simp only [scanCloseSame, Nat.add_one_ne_zero, if_false]
    rw [ih d ts]
    cases hs : scanCloseSame name ts (d + 1) with
    | none => simp
    | some p => obtain ⟨el, af⟩ := p; simp
  | elem hi hr ihi ihr =>
    intro d ts
    rename_i n attrs sc src srcC innr restr
    rw [List.cons_append]
    by_cases hn : n = name
    · subst hn
      simp only [scanCloseSame, if_pos rfl, if_true, Nat.add_one_ne_zero, if_false,
        List.append_eq, List.append_assoc, List.cons_append]
      rw [ihi (d + 1) (Tok.close n srcC :: (restr ++ ts))]
      simp only [scanCloseSame, if_pos rfl, if_true]
      have hd : d + 1 + 1 - 1 = d + 1 := by omega
      simp only [hd, Nat.add_one_ne_zero, if_false]
      rw [ihr d ts]
      cases hs : scanCloseSame n ts (d + 1) with
      | none => simp
      | some p =>
        obtain ⟨el, af⟩ := p
        simp [List.append_assoc, List.cons_append]
    · simp only [scanCloseSame, if_neg hn, Nat.add_one_ne_zero, if_false, List.append_eq,
        List.append_assoc, List.cons_append]
      rw [ihi d (Tok.close n srcC :: (restr ++ ts))]
      simp only [scanCloseSame, if_neg hn, Nat.add_one_ne_zero, if_false]
      rw [ihr d ts]
      cases hs : scanCloseSame name ts (d + 1) with
      | none => simp
      | some p =>
        obtain ⟨el, af⟩ := p
        simp [List.append_assoc, List.cons_append]

/-- C2: on a decoder token stream (well-nested inner markup, as the
non-strict auto-balancing decoder guarantees), the scan of
`renderMarkupStream` — which counts *every* start/end tag — identifies
exactly the matching close of the component and yields the element's
exact span, open tag through matching close (nested custom tags stay
inside the span for the next pass); and it coincides with the
specification's description of tracking only same-name nesting depth.
The byte span is the concatenation of the spanned tokens' sources. -/
theorem claim_c2 (name : String) (attrs : List (String × String)) (sc : Bool)
    (src srcC : String) (inner rest : List Tok) (hinner : WellNested inner) :
    scanClose (inner ++ Tok.close name srcC :: rest) 1 =
      some (inner ++ [Tok.close name srcC], rest) ∧
    scanCloseSame name (inner ++ Tok.close name srcC :: rest) 1 =
      some (inner ++ [Tok.close name srcC], rest) ∧
    bytesOf (Tok.start name attrs sc src :: (inner ++ [Tok.close name srcC])) =
      src ++ (bytesOf inner ++ srcC) := by
  refine ⟨?_, ?_, ?_⟩
  · rw [show (1 : Nat) = 0 + 1 from rfl, scanClose_skip hinner 0 (Tok.close name srcC :: rest)]
    simp [scanClose]
  · rw [show (1 : Nat) = 0 + 1 from rfl,
      scanCloseSame_skip name hinner 0 (Tok.close name srcC :: rest)]
    simp [scanCloseSame]
  · rw [show (Tok.start name attrs sc src :: (inner ++ [Tok.close name srcC])) =
      [Tok.start name attrs sc src] ++ inner ++ [Tok.close name srcC] by simp]
    rw [bytesOf_append, bytesOf_append]
    simp [bytesOf, Tok.srcOf, String.append_assoc]

/-- Witness for C2 on a concrete well-nested element
`<Card>hi<div></div></Card>z`. -/
theorem claim_c2_witness :
    scanClose [Tok.text "hi", Tok.start "div" [] false "<div>", Tok.close "div" "</div>",
        Tok.close "Card" "</Card>", Tok.text "z"] 1 =
      some ([Tok.text "hi", Tok.start "div" [] false "<div>", Tok.close "div" "</div>",
        Tok.close "Card" "</Card>"], [Tok.text "z"]) := by
  have h : WellNested [Tok.text "hi", Tok.start "div" [] false "<div>",
      Tok.close "div" "</div>"] := .text "hi" (.elem .nil .nil)
  exact (claim_c2 "Card" [] false "<Card>" "</Card>"
    [Tok.text "hi", Tok.start "div" [] false "<div>", Tok.close "div" "</div>"]
    [Tok.text "z"] h).1

/-! ### C8 — instrumentation discipline -/

theorem balTrace_append : ∀ {a b : List Event}, BalTrace a → BalTrace b → BalTrace (a ++ b) := by
  intro a b ha hb
  induction ha with
  | nil => simpa using hb
  | @block n e2 inner rest hi hr ihi ihr =>
    have h2 : BalTrace (Event.stageBegin n :: inner ++ Event.stageEnd n e2 :: (rest ++ b)) :=
      BalTrace.block hi ihr
    simpa [List.cons_append, List.append_assoc] using h2

theorem renderComponentBodyWith_balanced (e : AEngine)
    (sg : List Tok → List Tok → Nat → StreamOut)
    (hsg : ∀ toks pending depth, BalTrace (sg toks pending depth).events)
    (startTok : Tok) (el : List Tok) (depth : Nat) :
    BalTrace (renderComponentBodyWith e sg startTok el depth).2 := by
  unfold renderComponentBodyWith
  split
  · exact .nil
  · split
    · exact .nil
    · split
      · exact .nil
      · dsimp only
        split
        · exact .nil
        · exact hsg _ _ _

theorem streamGo_events_balanced (e : AEngine) :
    ∀ (fuel : Nat) (toks pending : List Tok) (depth : Nat),
      BalTrace (streamGo e fuel toks pending depth).events := by
  intro fuel
  induction fuel with
  | zero => intro toks pending depth; exact .nil
  | succ fuel ih =>
    intro toks pending depth
    cases toks with
    | nil => exact .nil
    | cons t rest =>
      cases hc : t.isComponentStart with
      | false => simpa [streamGo, hc] using ih rest (pending ++ [t]) depth
      | true =>
        cases hsc : scanClose rest 1 with
        | none =>
          simp only [streamGo, hc, if_true, hsc]
          exact .nil
        | some p =>
          obtain ⟨el, after⟩ := p
          have hbody := renderComponentBodyWith_balanced e (streamGo e fuel)
            (fun toks pending depth => ih toks pending depth) t el (depth + 1)
          have hblock :
              BalTrace (renderComponentWith e (streamGo e fuel) t el (depth + 1)).events :=
            BalTrace.block hbody BalTrace.nil
          cases hres : (renderComponentWith e (streamGo e fuel) t el (depth + 1)).res with
          | error err =>
            simp only [streamGo, hc, if_true, hsc, hres]
            exact hblock
          | ok rendered =>
            cases hs1 : (streamGo e fuel rendered [] (depth + 1)).res with
            | error err2 =>
              simp only [streamGo, hc, if_true, hsc, hres, hs1]
              exact balTrace_append hblock (ih rendered [] (depth + 1))
            | ok u =>
              simp only [streamGo, hc, if_true, hsc, hres, hs1]
              exact balTrace_append
                (balTrace_append hblock (ih rendered [] (depth + 1))) (ih after [] depth)

/-- C8: for every matched component occurrence — whatever the outcome
(missing template, child-render failure, attribute failure, policy
violation, augmenter failure, execution failure, depth limit, or
success) — the trace is one begin event (component name only) fired
before resolution, followed by the balanced trace of the nested
resolutions, followed by exactly one matching end event that carries the
resolution's error when it failed and nil when it succeeded. -/
theorem claim_c8 (e : AEngine) (fuel : Nat) (startTok : Tok) (el : List Tok) (depth : Nat) :
    (renderComponent e fuel startTok el depth).events =
      .stageBegin startTok.nameOf ::
        ((renderComponentBodyWith e (streamGo e fuel) startTok el depth).2 ++
         [.stageEnd startTok.nameOf (errOf (renderComponent e fuel startTok el depth).res)]) ∧
    BalTrace (renderComponentBodyWith e (streamGo e fuel) startTok el depth).2 ∧
    (∀ err, (renderComponent e fuel startTok el depth).res = .error err →
      errOf (renderComponent e fuel startTok el depth).res = some err) ∧
    (∀ out, (renderComponent e fuel startTok el depth).res = .ok out →
      errOf (renderComponent e fuel startTok el depth).res = none) := by
  refine ⟨rfl, ?_, ?_, ?_⟩
  · exact renderComponentBodyWith_balanced e (streamGo e fuel)
      (fun toks pending depth => streamGo_events_balanced e fuel toks pending depth)
      startTok el depth
  · intro err h
    rw [h]
    rfl
  · intro out h
    rw [h]
    rfl

/-- Witness for C8: a failing resolution (unknown component `Z`) whose
end event carries the error. -/
theorem claim_c8_witness :
    errOf (renderComponent baseAEngine 5 (Tok.start "Z" [] true "<Z/>")
      [Tok.close "Z" ""] 1).res = some (.notFound "Z") :=
  (claim_c8 baseAEngine 5 (Tok.start "Z" [] true "<Z/>") [Tok.close "Z" ""] 1).2.2.1
    (.notFound "Z") rfl

/-! ### C1 — pass limit on self-re-emitting components -/

/-- C1: `renderComponent` fails with the pass-limit error as soon as the
expansion depth exceeds `maxComponentPasses = 16` (for every engine and
element, before doing any other work); the error renders as
"component rendering exceeded 16 passes"; and on a document whose
top-level component re-emits itself on every expansion, `ParseFileContext`
terminates with exactly that error after exactly 16 successful passes
(the 17th expansion attempt is the one rejected). -/
theorem claim_c1 :
    (∀ (e : AEngine) (fuel : Nat) (startTok : Tok) (el : List Tok) (depth : Nat),
      depth > maxComponentPasses →
      (renderComponent e fuel startTok el depth).res = .error .passLimit) ∧
    RErr.passLimit.message = "component rendering exceeded 16 passes" ∧
    (ParseFileContext loopEngine 100 true loopDoc).res = .error .passLimit ∧
    countPassEnds (ParseFileContext loopEngine 100 true loopDoc).events = 16 := by
  refine ⟨?_, rfl, rfl, rfl⟩
  intro e fuel startTok el depth h
  simp [renderComponent, renderComponentWith, renderComponentBodyWith, h]

/-- Witness for C1 at depth 17 on a concrete element. -/
theorem claim_c1_witness :
    (renderComponent loopEngine 5 (Tok.start "A" [] true "<A/>") [Tok.close "A" ""] 17).res =
      .error .passLimit :=
  claim_c1.1 loopEngine 5 (Tok.start "A" [] true "<A/>") [Tok.close "A" ""] 17 (by decide)

/-! ### C3 — streaming fallback and write counts -/

/-- C3: with streaming writes enabled and a non-nil writer, configuring a
final template pass, any page pipeline, or any post-processor makes
`ParseFileContext` fall back to buffered accumulation, performing exactly
one write on the sink (on success); with none of them configured, a page
with one component and surrounding literal text produces more than one
write (here three: prefix, fragment, suffix). -/
theorem claim_c3 :
    (∀ (e : AEngine) (fuel : Nat) (raw : List Tok),
      e.streamingWrites = true →
      (e.finalTemplatePass = true ∨ e.pagePipelines ≠ [] ∨ e.postProcessors ≠ []) →
      (ParseFileContext e fuel true raw).res = .ok () →
      (ParseFileContext e fuel true raw).writes.length = 1) ∧
    (ParseFileContext streamEngine 50 true pageDoc).writes = ["a", "x", "c"] ∧
    1 < (ParseFileContext streamEngine 50 true pageDoc).writes.length := by
  refine ⟨?_, rfl, by decide⟩
  intro e fuel raw hs hconf hok
  have hcs : (e.streamingWrites && true && !e.finalTemplatePass &&
      e.postProcessors.isEmpty && e.pagePipelines.isEmpty) = false := by
    rcases hconf with h | h | h
    · simp [h]
    · cases hp : e.pagePipelines with
      | nil => exact absurd hp h
      | cons a b => simp [hp]
    · cases hp : e.postProcessors with
      | nil => exact absurd hp h
      | cons a b => simp [hp]
  by_cases hraw : bytesOf raw = ""
  · rw [ParseFileContext, if_pos hraw] at hok
    simp at hok
  · rw [ParseFileContext, if_neg hraw] at hok ⊢
    simp only [hcs, Bool.false_eq_true, if_false] at hok ⊢
    cases hrb : renderMarkupBytesWith (streamGo e fuel) raw 0 with
    | mk r evs =>
      cases r with
      | error err =>
        rw [hrb] at hok
        simp at hok
      | ok rendered =>
        cases happ : applyPostProcessing e rendered e.finalTemplatePass with
        | error err =>
          rw [hrb] at hok
          simp [happ] at hok
        | ok final =>
          simp [happ]

/-- Witness for C3: the same page and streaming-enabled engine, with a
final template pass configured, renders successfully with exactly one
buffered write. -/
theorem claim_c3_witness :
    (ParseFileContext bufferedEngine 50 true pageDoc).writes.length = 1 :=
  claim_c3.1 bufferedEngine 50 pageDoc rfl (Or.inl rfl) rfl

end HC
